import Mathlib

/-!
Verification development for the Gamehub game-library application
(src/game_library.py).  The record store, the form-save operation and the
launch dispatcher are embedded as pure Lean functions; file I/O is modelled
by an explicit file-state type and the launch side effects by a trace of
actions.
-/

namespace Gamehub

/-- One catalog entry, mirroring the dict written by save_game_from_form:
keys name, platform, launchPath, image, description, timestamp. -/
structure GameRecord where
  name : String
  platform : String
  launchPath : String
  image : String
  description : String
  timestamp : String
deriving DecidableEq

/-- Model of the Python str.strip() calls in save_game_from_form: remove
leading and trailing whitespace characters. -/
def strip (s : String) : String :=
  ⟨List.rdropWhile Char.isWhitespace (s.data.dropWhile Char.isWhitespace)⟩

/-- Model of Python str.lower() as used for the sort key and the .exe test
(ASCII lowering; the records exercised by the application are ASCII). -/
def lowerData (s : String) : List Char := s.data.map Char.toLower

/-- Sort key of populate_game_list: the lowercased name, as a character
sequence compared by code point, mirroring Python string comparison. -/
def sortKey (r : GameRecord) : List Char := lowerData r.name

/-- Code-point lexicographic order on character sequences, the order Python
uses to compare the string keys handed to list.sort. -/
def lexLe : List Char → List Char → Bool
  | [], _ => true
  | _ :: _, [] => false
  | a :: as, b :: bs =>
    if a.toNat < b.toNat then true
    else if b.toNat < a.toNat then false
    else lexLe as bs

/-- Key comparison used by the sort in populate_game_list. -/
def keyLe (a b : GameRecord) : Bool := lexLe (sortKey a) (sortKey b)

/-- Insert a record into an already sorted list, before the first record
whose key is not smaller; with stable equal-key placement this realises one
step of a stable sort. -/
def orderedInsert (a : GameRecord) : List GameRecord → List GameRecord
  | [] => [a]
  | b :: l => if keyLe a b then a :: b :: l else b :: orderedInsert a l

/-- The in-place stable sort performed by populate_game_list
(self.games.sort with key name lowercased): stable insertion sort, which
agrees with Python list.sort because stable sorting is unique. -/
def sort_games : List GameRecord → List GameRecord
  | [] => []
  | a :: l => orderedInsert a (sort_games l)

/-- A partial record, modelling a Python dict used as the argument of
dict.update on a stored record: a key either carries a value or is absent. -/
structure Patch where
  name : Option String
  platform : Option String
  launchPath : Option String
  image : Option String
  description : Option String
  timestamp : Option String
deriving DecidableEq

/-- Model of self.games[index].update(game_data): every key present in the
patch overwrites the corresponding field, absent keys leave it unchanged. -/
def applyPatch (r : GameRecord) (p : Patch) : GameRecord :=
  ⟨p.name.getD r.name, p.platform.getD r.platform, p.launchPath.getD r.launchPath,
   p.image.getD r.image, p.description.getD r.description, p.timestamp.getD r.timestamp⟩

/-- Merge a patch into the record at the given index, as the edit branch of
save_game_from_form does; out-of-range indices leave the list unchanged. -/
def updateAt (games : List GameRecord) (i : Nat) (p : Patch) : List GameRecord :=
  match games[i]? with
  | none => games
  | some r => games.set i (applyPatch r p)

/-- The full patch carrying every key of a form-built game_data dict. -/
def fullPatch (r : GameRecord) : Patch :=
  ⟨some r.name, some r.platform, some r.launchPath, some r.image,
   some r.description, some r.timestamp⟩

/-- The structured form payload the presentation layer hands to
save_game_from_form: raw widget contents, before stripping. -/
structure FormPayload where
  name : String
  platform : String
  launchPath : String
  image : String
  description : String
deriving DecidableEq

/-- Model of GameLibraryApp.save_game_from_form.  Returns the in-memory
collection after the operation together with the list of whole-collection
file writes it performed (empty when validation rejects the payload).
now stands for datetime.now().isoformat(). -/
def save_game_from_form (games : List GameRecord) (selected_game_index : Int)
    (is_edit_mode : Bool) (form : FormPayload) (now : String) :
    List GameRecord × List (List GameRecord) :=
  let name := strip form.name
  let platform := strip form.platform
  let launch_path := strip form.launchPath
  let image := strip form.image
  let description := strip form.description
  if name = "" ∨ platform = "" then
    (games, [])
  else
    let game_data : GameRecord := ⟨name, platform, launch_path, image, description, now⟩
    if is_edit_mode ∧ selected_game_index ≠ -1 then
      let updated := updateAt games selected_game_index.toNat (fullPatch game_data)
      (updated, [updated])
    else
      let appended := games ++ [game_data]
      (appended, [appended])

/-- Model of the deletion in GameLibraryApp.delete_game after the user
confirms: del self.games[index]. -/
def delete_game (games : List GameRecord) (i : Nat) : List GameRecord :=
  games.eraseIdx i

/-- State of the backing file game_library.json as load_games observes it:
absent, present but failing JSON decoding, failing with some other read
error, or parsing to a sequence of records.  The file contents are modelled
at the parsed level: a successful json.dump of a record list produces a file
that json.load parses back to the same list. -/
inductive FileState
  | absent
  | corrupt
  | read_error
  | valid (games : List GameRecord)
deriving DecidableEq

/-- The error dialog load_games surfaces, when it surfaces one. -/
inductive LoadNotice
  | decode_error
  | other_error
deriving DecidableEq

/-- Model of load_games: the resulting collection plus the surfaced notice,
if any.  Totality of this function reflects that every exception is caught
inside load_games. -/
def load_games : FileState → List GameRecord × Option LoadNotice
  | .absent => ([], none)
  | .corrupt => ([], some .decode_error)
  | .read_error => ([], some .other_error)
  | .valid games => (games, none)

/-- Model of a successful save_games: json.dump writes the whole collection,
yielding a file that parses back to exactly that collection. -/
def save_games (games : List GameRecord) : FileState :=
  FileState.valid games

/-- Host operating system as launch_game distinguishes it through
sys.platform: win32, darwin, or anything else. -/
inductive Host
  | windows
  | macos
  | other_unix
deriving DecidableEq

/-- Outcome of one attempt to start an external process: the exception the
attempt raised, if any.  FileNotFoundError is singled out because the code
catches it separately on some branches. -/
inductive SpawnErr
  | fileNotFound
  | other
deriving DecidableEq

/-- Environment of one launch_game call: the answer the user gives to the
elevation prompt, and the exception outcome of each process-start mechanism
the call may try (none means the OS accepted the start request). -/
structure LaunchEnv where
  admin_confirmed : Bool
  elevate_result : Option SpawnErr
  startfile_result : Option SpawnErr
  uri_result : Option SpawnErr
  open_result : Option SpawnErr
deriving DecidableEq

/-- Observable steps of launch_game, in order: process-start attempts and
the message boxes shown. -/
inductive LaunchAction
  | info_no_path
  | spawn_elevate (path : String)
  | info_elevated (path : String)
  | error_elevate_falling_back (path : String)
  | spawn_startfile (path : String)
  | info_standard (path : String)
  | error_standard (path : String)
  | spawn_uri (uri : String)
  | info_uri (uri : String)
  | error_uri (uri : String)
  | spawn_open (cmd : String) (path : String)
  | info_launch (path : String)
  | error_not_found (path : String)
  | error_launch (path : String)
deriving DecidableEq

/-- Whether an action is a process-start attempt. -/
def isSpawn : LaunchAction → Bool
  | .spawn_elevate _ => true
  | .spawn_startfile _ => true
  | .spawn_uri _ => true
  | .spawn_open _ _ => true
  | _ => false

/-- Character-list test that one list starts with another. -/
def leadsWith : List Char → List Char → Bool
  | [], _ => true
  | _ :: _, [] => false
  | a :: as, b :: bs => a == b && leadsWith as bs

/-- Model of path.startswith(s). -/
def startsWith (path s : String) : Bool := leadsWith s.data path.data

/-- Model of path.lower().endswith(".exe"). -/
def exe_condition (path : String) : Bool :=
  leadsWith ".exe".data.reverse (lowerData path).reverse

/-- Trace of a generic-open branch (subprocess.Popen of open or xdg-open):
the start attempt followed by the message the surrounding handlers show. -/
def openTrace (cmd path : String) : Option SpawnErr → List LaunchAction
  | none => [.spawn_open cmd path, .info_launch path]
  | some .fileNotFound => [.spawn_open cmd path, .error_not_found path]
  | some .other => [.spawn_open cmd path, .error_launch path]

/-- Trace of an os.startfile branch with FileNotFoundError caught
separately, as in the standard Windows branch. -/
def startfileTrace (path : String) : Option SpawnErr → List LaunchAction
  | none => [.spawn_startfile path, .info_standard path]
  | some .fileNotFound => [.spawn_startfile path, .error_not_found path]
  | some .other => [.spawn_startfile path, .error_launch path]

/-- Trace of a Popen of explorer on a URI, as in the steam and epicgames
branches (any exception reported the same way). -/
def uriTrace (path : String) : Option SpawnErr → List LaunchAction
  | none => [.spawn_uri path, .info_uri path]
  | some _ => [.spawn_uri path, .error_uri path]

/-- Model of GameLibraryApp.launch_game: given the host OS, the
environment of the call and the path, the ordered trace of observable
actions the call performs. -/
def launch_game (host : Host) (env : LaunchEnv) (path : String) : List LaunchAction :=
  if path = "" then
    [.info_no_path]
  else
    match host with
    | .windows =>
      if exe_condition path && env.admin_confirmed then
        match env.elevate_result with
        | none => [.spawn_elevate path, .info_elevated path]
        | some _ =>
          .spawn_elevate path :: .error_elevate_falling_back path ::
          match env.startfile_result with
          | none => [.spawn_startfile path, .info_standard path]
          | some _ => [.spawn_startfile path, .error_standard path]
      else if startsWith path "steam://" then
        uriTrace path env.uri_result
      else if startsWith path "epicgames://" then
        uriTrace path env.uri_result
      else
        startfileTrace path env.startfile_result
    | .macos => openTrace "open" path env.open_result
    | .other_unix => openTrace "xdg-open" path env.open_result

/-! Helper lemmas. -/

theorem dropWhile_eq_self_of_isPrefix {p : Char → Bool} {l y : List Char}
    (hl : List.dropWhile p l = l) (hy : y <+: l) : List.dropWhile p y = y := by
  cases y with
  | nil => simp
  | cons a ys =>
    obtain ⟨t, ht⟩ := hy
    have ha : p a = false := by
      by_contra hpa
      rw [Bool.not_eq_false] at hpa
      rw [← ht, List.cons_append, List.dropWhile_cons, if_pos hpa] at hl
      have hlen := congrArg List.length hl
      have hle := (@List.dropWhile_sublist Char (ys ++ t) p).length_le
      simp only [List.length_cons] at hlen
      omega
    simp [List.dropWhile, ha]

theorem strip_idem (s : String) : strip (strip s) = strip s := by
  unfold strip
  have hx : List.dropWhile Char.isWhitespace
      (List.dropWhile Char.isWhitespace s.data) =
      List.dropWhile Char.isWhitespace s.data :=
    List.dropWhile_idempotent _ _
  have hy : List.dropWhile Char.isWhitespace
      (List.rdropWhile Char.isWhitespace (List.dropWhile Char.isWhitespace s.data)) =
      List.rdropWhile Char.isWhitespace (List.dropWhile Char.isWhitespace s.data) :=
    dropWhile_eq_self_of_isPrefix hx (List.rdropWhile_prefix _ _)
  show (⟨List.rdropWhile Char.isWhitespace (List.dropWhile Char.isWhitespace
      (List.rdropWhile Char.isWhitespace (List.dropWhile Char.isWhitespace s.data)))⟩ :
      String) = _
  rw [hy, List.rdropWhile_idempotent]

theorem strip_strip_ne {s : String} (h : strip s ≠ "") : strip (strip s) ≠ "" := by
  rw [strip_idem]; exact h

theorem lexLe_refl : ∀ l : List Char, lexLe l l = true
  | [] => rfl
  | a :: as => by simp [lexLe, lexLe_refl as]

theorem lexLe_total : ∀ l m : List Char, lexLe l m = true ∨ lexLe m l = true
  | [], _ => .inl rfl
  | _ :: _, [] => .inr rfl
  | a :: as, b :: bs => by
    by_cases hab : a.toNat < b.toNat
    · left; simp [lexLe, hab]
    · by_cases hba : b.toNat < a.toNat
      · right; simp [lexLe, hba]
      · rcases lexLe_total as bs with h | h
        · left; simp [lexLe, hab, hba, h]
        · right; simp [lexLe, hab, hba, h]

theorem lexLe_cons_iff (a b : Char) (as bs : List Char) :
    lexLe (a :: as) (b :: bs) = true ↔
      a.toNat < b.toNat ∨ (a.toNat = b.toNat ∧ lexLe as bs = true) := by
  simp only [lexLe]
  by_cases h1 : a.toNat < b.toNat
  · simp [h1]
  · by_cases h2 : b.toNat < a.toNat
    · simp only [if_neg h1, if_pos h2, Bool.false_eq_true, false_iff]
      rintro (h | ⟨h, -⟩) <;> omega
    · have he : a.toNat = b.toNat := by omega
      simp [h1, h2, he]

theorem lexLe_trans : ∀ l m n : List Char,
    lexLe l m = true → lexLe m n = true → lexLe l n = true
  | [], _, _, _, _ => rfl
  | _ :: _, [], _, h1, _ => by simp [lexLe] at h1
  | _ :: _, _ :: _, [], _, h2 => by simp [lexLe] at h2
  | a :: as, b :: bs, c :: cs, h1, h2 => by
    rw [lexLe_cons_iff] at h1 h2 ⊢
    rcases h1 with h1 | ⟨h1e, h1r⟩ <;> rcases h2 with h2 | ⟨h2e, h2r⟩
    · exact .inl (by omega)
    · exact .inl (by omega)
    · exact .inl (by omega)
    · exact .inr ⟨by omega, lexLe_trans as bs cs h1r h2r⟩


theorem keyLe_refl (a : GameRecord) : keyLe a a = true := lexLe_refl _

theorem keyLe_total {a b : GameRecord} (h : keyLe a b = false) : keyLe b a = true := by
  rcases lexLe_total (sortKey a) (sortKey b) with h1 | h1
  · exact absurd h1 (by simp [keyLe] at h; simp [h])
  · exact h1

theorem keyLe_trans {a b c : GameRecord} (h1 : keyLe a b = true)
    (h2 : keyLe b c = true) : keyLe a c = true :=
  lexLe_trans _ _ _ h1 h2

theorem keyLe_of_eq_key {a b : GameRecord} (h : sortKey a = sortKey b) :
    keyLe a b = true := by
  unfold keyLe; rw [h]; exact lexLe_refl _

theorem orderedInsert_perm (a : GameRecord) :
    ∀ l : List GameRecord, (orderedInsert a l).Perm (a :: l)
  | [] => .refl _
  | b :: l => by
    simp only [orderedInsert]
    cases hab : keyLe a b
    · simp only [Bool.false_eq_true, if_neg, reduceCtorEq, if_false]
      exact ((orderedInsert_perm a l).cons b).trans (List.Perm.swap a b l)
    · simp

theorem mem_orderedInsert {a x : GameRecord} {l : List GameRecord}
    (h : x ∈ orderedInsert a l) : x = a ∨ x ∈ l := by
  have := (orderedInsert_perm a l).mem_iff.mp h
  simpa using this

theorem orderedInsert_pairwise (a : GameRecord) :
    ∀ l : List GameRecord, List.Pairwise (fun x y => keyLe x y = true) l →
      List.Pairwise (fun x y => keyLe x y = true) (orderedInsert a l)
  | [], _ => by simp [orderedInsert]
  | b :: l, h => by
    rcases List.pairwise_cons.mp h with ⟨hb, hl⟩
    simp only [orderedInsert]
    cases hab : keyLe a b
    · simp only [Bool.false_eq_true, if_neg, reduceCtorEq, if_false]
      refine List.pairwise_cons.mpr ⟨?_, orderedInsert_pairwise a l hl⟩
      intro x hx
      rcases mem_orderedInsert hx with rfl | hxl
      · exact keyLe_total hab
      · exact hb x hxl
    · simp only [if_pos]
      refine List.pairwise_cons.mpr ⟨?_, h⟩
      intro x hx
      rcases List.mem_cons.mp hx with rfl | hxl
      · exact hab
      · exact keyLe_trans hab (hb x hxl)

theorem sort_games_perm : ∀ l : List GameRecord, (sort_games l).Perm l
  | [] => .refl _
  | a :: l => (orderedInsert_perm a (sort_games l)).trans ((sort_games_perm l).cons a)

theorem sort_games_pairwise (l : List GameRecord) :
    List.Pairwise (fun x y => keyLe x y = true) (sort_games l) := by
  induction l with
  | nil => exact .nil
  | cons a l ih => exact orderedInsert_pairwise a (sort_games l) ih

theorem filter_orderedInsert_pos {a : GameRecord} {k : List Char}
    (ha : (sortKey a == k) = true) :
    ∀ l : List GameRecord,
      (orderedInsert a l).filter (fun r => sortKey r == k) =
        a :: l.filter (fun r => sortKey r == k)
  | [] => by simp [orderedInsert, List.filter, ha]
  | b :: l => by
    simp only [orderedInsert]
    cases hab : keyLe a b
    · have hbk : (sortKey b == k) = false := by
        rcases hbk : sortKey b == k with _ | _
        · rfl
        · have hk1 : sortKey a = k := by simpa using ha
          have hk2 : sortKey b = k := by simpa using hbk
          have : keyLe a b = true := keyLe_of_eq_key (hk1.trans hk2.symm)
          rw [this] at hab; cases hab
      simp only [Bool.false_eq_true, if_neg, reduceCtorEq, if_false]
      rw [List.filter_cons, if_neg (by simp [hbk]), List.filter_cons,
        if_neg (by simp [hbk]), filter_orderedInsert_pos ha l]
    · simp only [if_pos]
      rw [List.filter_cons, if_pos (by simp [ha])]

theorem filter_orderedInsert_neg {a : GameRecord} {k : List Char}
    (ha : (sortKey a == k) = false) :
    ∀ l : List GameRecord,
      (orderedInsert a l).filter (fun r => sortKey r == k) =
        l.filter (fun r => sortKey r == k)
  | [] => by simp [orderedInsert, List.filter, ha]
  | b :: l => by
    simp only [orderedInsert]
    cases hab : keyLe a b
    · simp only [Bool.false_eq_true, if_neg, reduceCtorEq, if_false]
      rw [List.filter_cons, List.filter_cons, filter_orderedInsert_neg ha l]
    · simp only [if_pos]
      rw [List.filter_cons, if_neg (by simp [ha]), List.filter_cons]

theorem sort_games_stable (l : List GameRecord) (k : List Char) :
    (sort_games l).filter (fun r => sortKey r == k) =
      l.filter (fun r => sortKey r == k) := by
  induction l with
  | nil => rfl
  | cons a l ih =>
    show (orderedInsert a (sort_games l)).filter (fun r => sortKey r == k) = _
    cases ha : sortKey a == k
    · rw [filter_orderedInsert_neg ha, ih, List.filter_cons, if_neg (by simp [ha])]
    · rw [filter_orderedInsert_pos ha, ih, List.filter_cons, if_pos (by simp [ha])]

/-- Invariant on stored records: name and platform are non-empty after
stripping. -/
def ValidRecord (r : GameRecord) : Prop :=
  strip r.name ≠ "" ∧ strip r.platform ≠ ""

instance (r : GameRecord) : Decidable (ValidRecord r) :=
  inferInstanceAs (Decidable (strip r.name ≠ "" ∧ strip r.platform ≠ ""))

/-! Claim theorems. -/

/-- C1: the sorted view produced by populate_game_list is a stable sort by
the lowercased name: it permutes the collection, is sorted under the key
order, every class of records with one key keeps its prior relative order,
and the records named Zelda, alpha, Beta come out as alpha, Beta, Zelda. -/
theorem C1_sorted_view_stable (games : List GameRecord) :
    (sort_games games).Perm games ∧
    List.Pairwise (fun a b => keyLe a b = true) (sort_games games) ∧
    (∀ k : List Char,
      (sort_games games).filter (fun r => sortKey r == k) =
        games.filter (fun r => sortKey r == k)) ∧
    (sort_games [⟨"Zelda", "", "", "", "", ""⟩, ⟨"alpha", "", "", "", "", ""⟩,
        ⟨"Beta", "", "", "", "", ""⟩]).map GameRecord.name =
      ["alpha", "Beta", "Zelda"] :=
  ⟨sort_games_perm games, sort_games_pairwise games,
   sort_games_stable games, by decide⟩

/-- C3 counterexample: with the backing file absent, load_games returns the
empty collection silently, with no surfaced notice, contradicting the claim
that every failure case surfaces a notice. -/
theorem C3_counterexample :
    load_games FileState.absent = ([], none) := rfl

/-- C3 (amended): load_games is total, so it never raises; an absent file
yields the empty collection with no notice, an unparsable file or any other
read error yields the empty collection with a surfaced notice, and only a
successful parse returns the file contents. -/
theorem C3_load_degrades :
    load_games FileState.absent = ([], none) ∧
    load_games FileState.corrupt = ([], some LoadNotice.decode_error) ∧
    load_games FileState.read_error = ([], some LoadNotice.other_error) ∧
    ∀ games, load_games (FileState.valid games) = (games, none) :=
  ⟨rfl, rfl, rfl, fun _ => rfl⟩

/-- C5: appending a valid record to a collection of valid records, saving
the whole collection and loading it back yields exactly the extended
collection, in particular a permutation of it. -/
theorem C5_add_persist_reload (records : List GameRecord) (new_record : GameRecord)
    (_hrecords : ∀ r ∈ records, ValidRecord r) (_hnew : ValidRecord new_record) :
    (load_games (save_games (records ++ [new_record]))).fst =
      records ++ [new_record] ∧
    (load_games (save_games (records ++ [new_record]))).fst.Perm
      (records ++ [new_record]) :=
  ⟨rfl, .refl _⟩

/-- C5 witness: the round trip at a concrete collection and record. -/
theorem C5_witness :
    (load_games (save_games ([⟨"a", "b", "", "", "", ""⟩] ++
        [⟨"Halo", "Steam", "", "", "", "t"⟩]))).fst =
      [⟨"a", "b", "", "", "", ""⟩] ++ [⟨"Halo", "Steam", "", "", "", "t"⟩] :=
  (C5_add_persist_reload [⟨"a", "b", "", "", "", ""⟩]
    ⟨"Halo", "Steam", "", "", "", "t"⟩ (by decide) (by decide)).1

/-- C6: on every host and in every environment, launching with an empty
path reports only the no-path message and spawns nothing. -/
theorem C6_empty_path (host : Host) (env : LaunchEnv) :
    launch_game host env "" = [LaunchAction.info_no_path] ∧
    (launch_game host env "").filter isSpawn = [] := by
  have h : launch_game host env "" = [LaunchAction.info_no_path] := by
    simp [launch_game]
  exact ⟨h, by rw [h]; rfl⟩

/-- C2: when the form name or platform is empty after stripping,
save_game_from_form leaves the collection unchanged and performs no file
write, hence creates no partial record. -/
theorem C2_validation_rejects (games : List GameRecord) (sel : Int)
    (is_edit : Bool) (form : FormPayload) (now : String)
    (h : strip form.name = "" ∨ strip form.platform = "") :
    save_game_from_form games sel is_edit form now = (games, []) := by
  simp [save_game_from_form, h]

/-- C2 witness: a payload with a whitespace-only name is rejected. -/
theorem C2_witness :
    (strip "  " = "" ∨ strip "Steam" = "") ∧
    save_game_from_form [⟨"a", "b", "", "", "", ""⟩] 0 false
      ⟨"  ", "Steam", "p", "u", "d"⟩ "t" = ([⟨"a", "b", "", "", "", ""⟩], []) :=
  ⟨Or.inl (by decide),
   C2_validation_rejects [⟨"a", "b", "", "", "", ""⟩] 0 false
     ⟨"  ", "Steam", "p", "u", "d"⟩ "t" (Or.inl (by decide))⟩

/-- C4: merging a patch into the record at an in-range index keeps the
length, leaves every other position untouched, and on the patched record
overwrites exactly the provided fields (the timestamp among them) while
every absent field keeps its prior value. -/
theorem C4_update_frame (games : List GameRecord) (i : Nat) (p : Patch)
    (now : String) (hi : i < games.length) (ht : p.timestamp = some now) :
    (updateAt games i p).length = games.length ∧
    (∀ j, j ≠ i → (updateAt games i p)[j]? = games[j]?) ∧
    ∀ r, games[i]? = some r →
      (updateAt games i p)[i]? = some (applyPatch r p) ∧
      (applyPatch r p).timestamp = now ∧
      (p.name = none → (applyPatch r p).name = r.name) ∧
      (p.platform = none → (applyPatch r p).platform = r.platform) ∧
      (p.launchPath = none → (applyPatch r p).launchPath = r.launchPath) ∧
      (p.image = none → (applyPatch r p).image = r.image) ∧
      (p.description = none → (applyPatch r p).description = r.description) ∧
      (∀ v, p.name = some v → (applyPatch r p).name = v) ∧
      (∀ v, p.platform = some v → (applyPatch r p).platform = v) ∧
      (∀ v, p.launchPath = some v → (applyPatch r p).launchPath = v) ∧
      (∀ v, p.image = some v → (applyPatch r p).image = v) ∧
      (∀ v, p.description = some v → (applyPatch r p).description = v) := by
  have hg : games[i]? = some (games[i]) := List.getElem?_eq_getElem hi
  refine ⟨?_, ?_, ?_⟩
  · simp only [updateAt, hg]
    exact List.length_set games i _
  · intro j hj
    simp only [updateAt, hg]
    exact List.getElem?_set_ne (Ne.symm hj)
  · intro r hr
    have hrg : r = games[i] := by rw [hg] at hr; exact (Option.some.inj hr).symm
    subst hrg
    refine ⟨?_, ?_, ?_, ?_, ?_, ?_, ?_, ?_, ?_, ?_, ?_, ?_⟩
    · simp only [updateAt, hg]
      exact List.getElem?_set_self hi
    · simp [applyPatch, ht]
    · intro hf; simp [applyPatch, hf]
    · intro hf; simp [applyPatch, hf]
    · intro hf; simp [applyPatch, hf]
    · intro hf; simp [applyPatch, hf]
    · intro hf; simp [applyPatch, hf]
    · intro v hf; simp [applyPatch, hf]
    · intro v hf; simp [applyPatch, hf]
    · intro v hf; simp [applyPatch, hf]
    · intro v hf; simp [applyPatch, hf]
    · intro v hf; simp [applyPatch, hf]

/-- C4 witness: patching only the description and timestamp of a concrete
one-record collection. -/
theorem C4_witness :
    (updateAt [⟨"a", "b", "c", "d", "e", "f"⟩] 0
        ⟨none, none, none, none, some "x", some "t"⟩).length = 1 ∧
    (updateAt [⟨"a", "b", "c", "d", "e", "f"⟩] 0
        ⟨none, none, none, none, some "x", some "t"⟩)[0]? =
      some ⟨"a", "b", "c", "d", "x", "t"⟩ :=
  ⟨(C4_update_frame [⟨"a", "b", "c", "d", "e", "f"⟩] 0
      ⟨none, none, none, none, some "x", some "t"⟩ "t" (by decide) rfl).1,
   ((C4_update_frame [⟨"a", "b", "c", "d", "e", "f"⟩] 0
      ⟨none, none, none, none, some "x", some "t"⟩ "t" (by decide) rfl).2.2
      ⟨"a", "b", "c", "d", "e", "f"⟩ rfl).1⟩

/-- C7: on Windows, for an .exe path (case-insensitive) with the elevation
prompt confirmed, launch_game first invokes the elevation mechanism; if
that raises it reports the fallback and invokes the standard OS-open, and
only if that also raises is a final error reported. -/
theorem C7_elevated_launch_fallback (path : String) (env : LaunchEnv)
    (hpath : path ≠ "") (hexe : exe_condition path = true)
    (hadmin : env.admin_confirmed = true) :
    (env.elevate_result = none →
      launch_game Host.windows env path =
        [LaunchAction.spawn_elevate path, LaunchAction.info_elevated path]) ∧
    ∀ e, env.elevate_result = some e →
      (env.startfile_result = none →
        launch_game Host.windows env path =
          [LaunchAction.spawn_elevate path,
           LaunchAction.error_elevate_falling_back path,
           LaunchAction.spawn_startfile path, LaunchAction.info_standard path]) ∧
      ∀ f, env.startfile_result = some f →
        launch_game Host.windows env path =
          [LaunchAction.spawn_elevate path,
           LaunchAction.error_elevate_falling_back path,
           LaunchAction.spawn_startfile path, LaunchAction.error_standard path] := by
  constructor
  · intro he
    simp [launch_game, hpath, hexe, hadmin, he]
  · intro e he
    constructor
    · intro hs
      simp [launch_game, hpath, hexe, hadmin, he, hs]
    · intro f hs
      simp [launch_game, hpath, hexe, hadmin, he, hs]

/-- C7 witness: elevation raising and the fallback also raising, on a
concrete .exe path. -/
theorem C7_witness :
    launch_game Host.windows
        ⟨true, some SpawnErr.other, some SpawnErr.other, none, none⟩ "C:\\g.exe" =
      [LaunchAction.spawn_elevate "C:\\g.exe",
       LaunchAction.error_elevate_falling_back "C:\\g.exe",
       LaunchAction.spawn_startfile "C:\\g.exe",
       LaunchAction.error_standard "C:\\g.exe"] :=
  (((C7_elevated_launch_fallback "C:\\g.exe"
      ⟨true, some SpawnErr.other, some SpawnErr.other, none, none⟩
      (by decide) (by decide) rfl).2 SpawnErr.other rfl).2 SpawnErr.other rfl)

/-- C8: on macOS and on other Unix hosts every non-empty path goes to the
generic open command (open, resp. xdg-open); a FileNotFoundError is
reported with the missing-path message, any other failure with the generic
message, and those two reports are distinct actions. -/
theorem C8_generic_open (path : String) (env : LaunchEnv) (hpath : path ≠ "") :
    launch_game Host.macos env path = openTrace "open" path env.open_result ∧
    launch_game Host.other_unix env path =
      openTrace "xdg-open" path env.open_result ∧
    (env.open_result = none →
      launch_game Host.macos env path =
        [LaunchAction.spawn_open "open" path, LaunchAction.info_launch path]) ∧
    (env.open_result = some SpawnErr.fileNotFound →
      launch_game Host.macos env path =
        [LaunchAction.spawn_open "open" path, LaunchAction.error_not_found path]) ∧
    (env.open_result = some SpawnErr.other →
      launch_game Host.macos env path =
        [LaunchAction.spawn_open "open" path, LaunchAction.error_launch path]) ∧
    (env.open_result = some SpawnErr.fileNotFound →
      launch_game Host.other_unix env path =
        [LaunchAction.spawn_open "xdg-open" path,
         LaunchAction.error_not_found path]) ∧
    (env.open_result = some SpawnErr.other →
      launch_game Host.other_unix env path =
        [LaunchAction.spawn_open "xdg-open" path,
         LaunchAction.error_launch path]) ∧
    ∀ q : String, LaunchAction.error_not_found q ≠ LaunchAction.error_launch q := by
  refine ⟨by simp [launch_game, hpath], by simp [launch_game, hpath],
    ?_, ?_, ?_, ?_, ?_, fun q h => by cases h⟩ <;>
    intro ho <;> simp [launch_game, hpath, ho, openTrace]

/-- C8 witness: the macOS branch at a concrete path with a missing-file
failure. -/
theorem C8_witness :
    launch_game Host.macos ⟨false, none, none, none, some SpawnErr.fileNotFound⟩
        "/Applications/Game.app" =
      [LaunchAction.spawn_open "open" "/Applications/Game.app",
       LaunchAction.error_not_found "/Applications/Game.app"] :=
  (C8_generic_open "/Applications/Game.app"
    ⟨false, none, none, none, some SpawnErr.fileNotFound⟩
    (by decide)).2.2.2.1 rfl

/-- C10: on Windows, for an .exe path with the elevation prompt declined
and no URI scheme matching, launch_game falls through to the standard
OS-open of the path, with its missing-file versus generic failure
distinction. -/
theorem C10_declined_elevation_falls_through (path : String) (env : LaunchEnv)
    (hpath : path ≠ "") (_hexe : exe_condition path = true)
    (hadmin : env.admin_confirmed = false)
    (hsteam : startsWith path "steam://" = false)
    (hepic : startsWith path "epicgames://" = false) :
    launch_game Host.windows env path =
      startfileTrace path env.startfile_result ∧
    (env.startfile_result = none →
      launch_game Host.windows env path =
        [LaunchAction.spawn_startfile path, LaunchAction.info_standard path]) ∧
    (env.startfile_result = some SpawnErr.fileNotFound →
      launch_game Host.windows env path =
        [LaunchAction.spawn_startfile path,
         LaunchAction.error_not_found path]) ∧
    (env.startfile_result = some SpawnErr.other →
      launch_game Host.windows env path =
        [LaunchAction.spawn_startfile path, LaunchAction.error_launch path]) := by
  refine ⟨by simp [launch_game, hpath, hadmin, hsteam, hepic], ?_, ?_, ?_⟩ <;>
    intro hs <;> simp [launch_game, hpath, hadmin, hsteam, hepic, hs, startfileTrace]

/-- C10 witness: a declined elevation prompt on a concrete .exe path
followed by a successful standard open. -/
theorem C10_witness :
    launch_game Host.windows ⟨false, none, none, none, none⟩ "C:\\g.exe" =
      [LaunchAction.spawn_startfile "C:\\g.exe",
       LaunchAction.info_standard "C:\\g.exe"] :=
  (C10_declined_elevation_falls_through "C:\\g.exe" ⟨false, none, none, none, none⟩
    (by decide) (by decide) rfl (by decide) (by decide)).2.1 rfl

theorem mem_updateAt {games : List GameRecord} {r : GameRecord} {i : Nat}
    {p : Patch} (h : r ∈ updateAt games i p) :
    r ∈ games ∨ ∃ old, games[i]? = some old ∧ r = applyPatch old p := by
  rcases hg : games[i]? with _ | old
  · simp only [updateAt, hg] at h
    exact .inl h
  · simp only [updateAt, hg] at h
    rcases List.mem_or_eq_of_mem_set h with h1 | h1
    · exact .inl h1
    · exact .inr ⟨old, rfl, h1⟩

theorem applyPatch_fullPatch (r g : GameRecord) :
    applyPatch r (fullPatch g) = g := rfl

/-- C9: starting from a collection of valid records, the collection
produced by save_game_from_form (add or edit), by delete_game, by the sort
of populate_game_list, and by saving then reloading the backing file again
contains only valid records. -/
theorem C9_invariant_preserved (games : List GameRecord) (sel : Int)
    (is_edit : Bool) (form : FormPayload) (now : String) (i : Nat)
    (h : ∀ r ∈ games, ValidRecord r) :
    (∀ r ∈ (save_game_from_form games sel is_edit form now).fst, ValidRecord r) ∧
    (∀ r ∈ delete_game games i, ValidRecord r) ∧
    (∀ r ∈ sort_games games, ValidRecord r) ∧
    (∀ r ∈ (load_games (save_games games)).fst, ValidRecord r) := by
  refine ⟨?_, ?_, ?_, ?_⟩
  · intro r hr
    by_cases hv : strip form.name = "" ∨ strip form.platform = ""
    · simp only [save_game_from_form, if_pos hv] at hr
      exact h r hr
    · push_neg at hv
      have hval : ValidRecord
          ⟨strip form.name, strip form.platform, strip form.launchPath,
           strip form.image, strip form.description, now⟩ :=
        ⟨strip_strip_ne hv.1, strip_strip_ne hv.2⟩
      by_cases he : is_edit = true ∧ sel ≠ -1
      · simp only [save_game_from_form, if_neg (not_or.mpr hv), if_pos he] at hr
        rcases mem_updateAt hr with h1 | ⟨old, -, h1⟩
        · exact h r h1
        · rw [h1, applyPatch_fullPatch]
          exact hval
      · simp only [save_game_from_form, if_neg (not_or.mpr hv), if_neg he,
          List.mem_append, List.mem_singleton] at hr
        rcases hr with h1 | h1
        · exact h r h1
        · rw [h1]
          exact hval
  · intro r hr
    exact h r ((List.eraseIdx_sublist games i).subset hr)
  · intro r hr
    exact h r ((sort_games_perm games).mem_iff.mp hr)
  · intro r hr
    exact h r hr

/-- C9 witness: the record just added to a concrete valid collection is
itself valid, via the preserved invariant. -/
theorem C9_witness : ValidRecord ⟨"c", "d", "", "", "", "t"⟩ :=
  (C9_invariant_preserved [⟨"a", "b", "", "", "", ""⟩] 0 false
    ⟨"c", "d", "", "", ""⟩ "t" 0 (by decide)).1
    ⟨"c", "d", "", "", "", "t"⟩ (by decide)

end Gamehub
